import Mathlib

/-!
Verification model of the secret resolution engine in `src/secrets.js`
(`getSecrets`, `isAllowed`, `selectData`, `selectAndAppendResults`).

JSON payload bodies are modelled by the inductive `Json` (the engine only
ever receives bodies that already parsed as JSON, so the transport is
modelled as returning `Json` values; `JSON.parse` failures are out of
scope of every claim).  JavaScript `undefined` is modelled as `none` in
`Option Json`; property access on `undefined`/`null`, the `in` operator on
primitives, and `minimatch` on a non-string pattern raise `TypeError`,
modelled by `Err.typeError`.  Errors thrown with `throw Error(msg)` are
`Err.error msg`; a rethrown transport error is `Err.httpError`.
-/

inductive Json where
  | null
  | bool (b : Bool)
  | num (n : Int)
  | str (s : String)
  | arr (elems : List Json)
  | obj (fields : List (String × Json))

inductive Err where
  | error (msg : String)
  | httpError (statusCode : Nat) (body : String)
  | typeError
  | jsonataError (src : String)
deriving DecidableEq, Repr

/-- First-match association-list lookup; models JavaScript property lookup
on an object literal (JSON objects have unique keys). -/
def lookupField : List (String × Json) → String → Option Json
  | [], _ => none
  | (k, v) :: rest, key => if k = key then some v else lookupField rest key

/-- JavaScript member access `j.k` (or `j["k"]`) on a possibly-undefined
value: access on `undefined` or `null` throws a TypeError; on a primitive
or array the properties the engine reads are absent (`undefined`). -/
def jsMember : Option Json → String → Except Err (Option Json)
  | none, _ => Except.error Err.typeError
  | some Json.null, _ => Except.error Err.typeError
  | some (Json.obj fields), k => Except.ok (lookupField fields k)
  | some _, _ => Except.ok none

/-- Loose JavaScript comparison `x != undefined`: false exactly for
`undefined` and `null`. -/
def isDefinedLoose : Option Json → Bool
  | none => false
  | some Json.null => false
  | some _ => true

/-- One character of JSON string escaping (the engine only ever unwraps
string results, so escaping of quote and backslash suffices; control
characters do not occur in the claims). -/
def escCh (c : Char) : String :=
  if c = '"' then "\\\"" else if c = '\\' then "\\\\" else String.mk [c]

def escapeJson (s : String) : String :=
  String.join (s.toList.map escCh)

/-- Fuel-driven canonical JSON serialisation, modelling `JSON.stringify`
on the JSON values the engine handles (integers stand in for JS numbers;
floating point is outside every claim).  `sizeOf` strictly dominates the
nesting depth, so `stringify` below never exhausts its fuel. -/
def stringifyF : Nat → Json → String
  | 0, _ => ""
  | _ + 1, Json.null => "null"
  | _ + 1, Json.bool b => cond b "true" "false"
  | _ + 1, Json.num n => toString n
  | _ + 1, Json.str s => "\"" ++ escapeJson s ++ "\""
  | n + 1, Json.arr elems => "[" ++ String.intercalate "," (elems.map (stringifyF n)) ++ "]"
  | n + 1, Json.obj fields =>
      "\x7b" ++
        String.intercalate ","
          (fields.map (fun kv => "\"" ++ escapeJson kv.1 ++ "\":" ++ stringifyF n kv.2)) ++
      "\x7d"

mutual

def jsonSize : Json → Nat
  | Json.null => 1
  | Json.bool _ => 1
  | Json.num _ => 1
  | Json.str _ => 1
  | Json.arr elems => 1 + jsonSizeList elems
  | Json.obj fields => 1 + jsonSizeFields fields

def jsonSizeList : List Json → Nat
  | [] => 0
  | j :: rest => 1 + jsonSize j + jsonSizeList rest

def jsonSizeFields : List (String × Json) → Nat
  | [] => 0
  | kv :: rest => 1 + jsonSize kv.2 + jsonSizeFields rest

end

def stringify (j : Json) : String := stringifyF (jsonSize j) j

/-- ASCII lower-casing; models `String.prototype.toLowerCase` on the
ASCII configuration strings and names the engine handles. -/
def lowerChar (c : Char) : Char :=
  if 'A' ≤ c ∧ c ≤ 'Z' then Char.ofNat (c.toNat + 32) else c

def lowerStr (s : String) : String := String.mk (s.toList.map lowerChar)

/-- ASCII upper-casing; models `String.prototype.toUpperCase`. -/
def upperChar (c : Char) : Char :=
  if 'a' ≤ c ∧ c ≤ 'z' then Char.ofNat (c.toNat - 32) else c

def upperStr (s : String) : String := String.mk (s.toList.map upperChar)

/-- `s.startsWith(pfx)` over the character list (kernel-computable). -/
def jsStartsWith (s pfx : String) : Bool := pfx.toList.isPrefixOf s.toList

/-- Does `s` contain the character `c` (the test the regex
`/.*[\.].*/` performs for the dot, kernel-computable). -/
def jsContainsChar (s : String) (c : Char) : Bool := s.toList.contains c

/-!
Glob matching.  `isAllowed` matches context values against payload
patterns with the external `minimatch` library; per the spec the relevant
semantics are standard glob: `*`, `?`, and character classes.  Modelled
from the spec for that library (it is a dependency, not repository code).
-/

/-- Parse the items of a character class after the optional negation
marker: single characters and `a-b` ranges, up to the closing bracket. -/
def parseClassItems : List Char → Option (List (Char × Char) × List Char)
  | [] => none
  | ']' :: rest => some ([], rest)
  | a :: '-' :: b :: rest =>
    if b = ']' then
      match parseClassItems (']' :: rest) with
      | some (items, rem) => some ((a, a) :: ('-', '-') :: items, rem)
      | none => none
    else
      match parseClassItems rest with
      | some (items, rem) => some ((a, b) :: items, rem)
      | none => none
  | a :: rest =>
    match parseClassItems rest with
    | some (items, rem) => some ((a, a) :: items, rem)
    | none => none

def classMatch (neg : Bool) (items : List (Char × Char)) (c : Char) : Bool :=
  xor neg (items.any (fun ab => ab.1 ≤ c ∧ c ≤ ab.2))

/-- Fuel-driven glob matcher over pattern and subject character lists.
The fuel only needs to dominate `pattern.length + subject.length`. -/
def globMatchF : Nat → List Char → List Char → Bool
  | 0, _, _ => false
  | _ + 1, [], [] => true
  | _ + 1, [], _ :: _ => false
  | n + 1, '*' :: ps, s =>
    globMatchF n ps s ||
      (match s with
       | [] => false
       | _ :: ss => globMatchF n ('*' :: ps) ss)
  | n + 1, '?' :: ps, _ :: ss => globMatchF n ps ss
  | _ + 1, '?' :: _, [] => false
  | n + 1, '[' :: ps, c :: ss =>
    (match (match ps with
            | '!' :: t => (true, t)
            | '^' :: t => (true, t)
            | _ => (false, ps)) with
     | (neg, ps2) =>
       match parseClassItems ps2 with
       | some (items, rest) => classMatch neg items c && globMatchF n rest ss
       | none => ('[' = c) && globMatchF n ps ss)
  | _ + 1, '[' :: _, [] => false
  | n + 1, p :: ps, c :: ss => p = c && globMatchF n ps ss
  | _ + 1, _ :: _, [] => false

/-- `minimatch(target, pattern)`: does `target` match the glob `pattern`. -/
def minimatch (target pattern : String) : Bool :=
  globMatchF (pattern.length + target.length + 1) pattern.toList target.toList

/-- The five identity attributes read from the execution environment
(`JOB_POD_NAME`, `JOB_POD_NAMESPACE`, `JOB_POD_SERVICEACCOUNT`,
`GITHUB_ACTOR`, `GITHUB_REPOSITORY`). -/
structure AuthContext where
  jobPodName : String
  jobPodNamespace : String
  jobPodServiceaccount : String
  githubActor : String
  githubRepository : String

/-- One authorization check of `isAllowed`: absent key denies; a present
string value is used as the glob pattern for the context value; a present
non-string value makes `minimatch` throw a TypeError. -/
def checkAttr (subject : String) (fields : List (String × Json)) (key : String) :
    Except Err Bool :=
  match lookupField fields key with
  | none => Except.ok false
  | some (Json.str pat) => Except.ok (minimatch subject pat)
  | some _ => Except.error Err.typeError

/-- The authorization gate `isAllowed(data)` of `src/secrets.js:129`,
with the list of attribute keys actually checked (in order) alongside the
verdict: the source emits one `core.debug` line per check, which this
trace models.  The argument is the possibly-undefined `body.data.data`;
the first `in` test throws a TypeError unless it is an object. -/
def isAllowed (ctx : AuthContext) (d : Option Json) : Except Err (Bool × List String) :=
  match d with
  | some (Json.obj fields) =>
    (match checkAttr ctx.jobPodName fields "x-k8s-podname" with
     | Except.error e => Except.error e
     | Except.ok false => Except.ok (false, ["x-k8s-podname"])
     | Except.ok true =>
       match checkAttr ctx.jobPodNamespace fields "x-k8s-namespace" with
       | Except.error e => Except.error e
       | Except.ok false => Except.ok (false, ["x-k8s-podname", "x-k8s-namespace"])
       | Except.ok true =>
         match checkAttr ctx.jobPodServiceaccount fields "x-k8s-serviceaccount" with
         | Except.error e => Except.error e
         | Except.ok false =>
           Except.ok (false, ["x-k8s-podname", "x-k8s-namespace", "x-k8s-serviceaccount"])
         | Except.ok true =>
           match checkAttr ctx.githubActor fields "x-github-actor" with
           | Except.error e => Except.error e
           | Except.ok false =>
             Except.ok (false,
               ["x-k8s-podname", "x-k8s-namespace", "x-k8s-serviceaccount", "x-github-actor"])
           | Except.ok true =>
             match checkAttr ctx.githubRepository fields "x-github-repo" with
             | Except.error e => Except.error e
             | Except.ok false =>
               Except.ok (false,
                 ["x-k8s-podname", "x-k8s-namespace", "x-k8s-serviceaccount",
                  "x-github-actor", "x-github-repo"])
             | Except.ok true =>
               Except.ok (true,
                 ["x-k8s-podname", "x-k8s-namespace", "x-k8s-serviceaccount",
                  "x-github-actor", "x-github-repo"]))
  | _ => Except.error Err.typeError

/-!
The jsonata selector fragment.  The engine evaluates selectors with the
external `jsonata` library; it only ever constructs (or receives from the
caller) path expressions whose steps are bare identifiers, backtick-quoted
names, or double-quoted names, and bare string literals.  In jsonata a
string literal occurring as a path step is treated as a field name, while
a selector that is nothing but a string literal has AST type `string`;
a one-or-more-step field reference has AST type `path` with one AST node
per step.  Array mapping semantics of jsonata are not modelled: no claim
exercises a path step applied to an array.
-/

inductive Ast where
  | strLit (s : String)
  | path (steps : List String)
deriving DecidableEq, Repr

def isIdentStart (c : Char) : Bool := c.isAlpha || c = '_' || c = '$'

def isIdentChar (c : Char) : Bool := c.isAlphanum || c = '_' || c = '$'

/-- Parse one path step; returns (was a double-quoted string literal,
name, remaining input). -/
def parseStep : List Char → Option (Bool × String × List Char)
  | [] => none
  | '"' :: rest =>
    (match rest.dropWhile (fun c => c ≠ '"') with
     | '"' :: rest3 => some (true, String.mk (rest.takeWhile (fun c => c ≠ '"')), rest3)
     | _ => none)
  | '\x60' :: rest =>
    (match rest.dropWhile (fun c => c ≠ '\x60') with
     | '\x60' :: rest3 =>
       some (false, String.mk (rest.takeWhile (fun c => c ≠ '\x60')), rest3)
     | _ => none)
  | c :: rest =>
    if isIdentStart c then
      some (false, String.mk ((c :: rest).takeWhile isIdentChar),
        (c :: rest).dropWhile isIdentChar)
    else none

/-- Fuel-driven parse of a dot-separated sequence of steps. -/
def parseSteps : Nat → List Char → Option (List (Bool × String))
  | 0, _ => none
  | n + 1, cs =>
    match parseStep cs with
    | none => none
    | some (q, name, rest) =>
      match rest with
      | [] => some [(q, name)]
      | '.' :: more =>
        (match parseSteps n more with
         | none => none
         | some steps => some ((q, name) :: steps))
      | _ => none

/-- `jsonata(selector)`: `none` models a syntax error thrown by the
library.  A selector that is exactly one double-quoted literal is a
string-literal expression; otherwise the steps form a path. -/
def parseJsonata (selector : String) : Option Ast :=
  match parseSteps (selector.length + 1) selector.toList with
  | none => none
  | some [(true, s)] => some (Ast.strLit s)
  | some steps => some (Ast.path (steps.map (fun st => st.2)))

/-- Evaluate a path: each step is a field lookup on the current value;
a missing field or a step applied to a non-object yields `undefined`. -/
def evalPath : List String → Json → Option Json
  | [], j => some j
  | s :: rest, j =>
    match j with
    | Json.obj fields =>
      (match lookupField fields s with
       | some v => evalPath rest v
       | none => none)
    | _ => none

/-- `ata.evaluate(data)`: a string literal evaluates to itself, a path
navigates the JSON tree; `none` is jsonata's `undefined`. -/
def evalAst : Ast → Json → Option Json
  | Ast.strLit s, _ => some (Json.str s)
  | Ast.path steps, j => evalPath steps j

/-- The condition `(ast.type === "path" && ast.steps.length === 1) ||
ast.type === "string"` from `src/secrets.js:224`. -/
def fallbackSyntax : Ast → Bool
  | Ast.path steps => steps.length == 1
  | Ast.strLit _ => true

/-- The JavaScript `in` operator: property test on objects and arrays,
TypeError on primitives. -/
def hasKeyIn : Json → String → Except Err Bool
  | Json.obj fields, k => Except.ok (lookupField fields k).isSome
  | Json.arr _, _ => Except.ok false
  | _, _ => Except.error Err.typeError

def selectorNotFoundMsg (selector : String) : String :=
  "Unable to retrieve result for " ++ selector ++
    ". No match data was found. Double check your Key or Selector."

/-- `JSON.stringify` the evaluation result and, when it starts with a
double quote (exactly when the value is a JSON string), `JSON.parse` it
back to the raw string. -/
def unwrapResult (v : Json) : String :=
  match v with
  | Json.str s => s
  | v => stringify v

/-- `selectData(data, selector)` of `src/secrets.js:219`.  The primary
evaluation result is `undefined` iff the model evaluator yields `none`
(`JSON.stringify(undefined)` is `undefined`, the only falsy case here).
When the `data.`-retry was taken and still yields `undefined`, the source
reaches `result.startsWith` with `result === undefined` and throws a
TypeError; the explicit `throw Error(...)` happens only in the
`else if (!result)` branch, i.e. when the retry condition failed. -/
def selectData (data : Json) (selector : String) : Except Err String :=
  match parseJsonata selector with
  | none => Except.error (Err.jsonataError selector)
  | some ast =>
    match evalAst ast data with
    | some v => Except.ok (unwrapResult v)
    | none =>
      if fallbackSyntax ast && selector != "data" then
        match hasKeyIn data "data" with
        | Except.error e => Except.error e
        | Except.ok true =>
          (match parseJsonata ("data." ++ selector) with
           | none => Except.error (Err.jsonataError ("data." ++ selector))
           | some ast2 =>
             match evalAst ast2 data with
             | some v => Except.ok (unwrapResult v)
             | none => Except.error Err.typeError)
        | Except.ok false => Except.error (Err.error (selectorNotFoundMsg selector))
      else Except.error (Err.error (selectorNotFoundMsg selector))

structure SecretRequest where
  path : String
  selector : String
  outputVarName : String
  envVarName : String
deriving DecidableEq, Repr

structure SecretResponse where
  request : SecretRequest
  value : String
  cachedResponse : Bool
deriving DecidableEq, Repr

/-- Modelled from the spec: the wildcard marker constants come from
`src/constants`, which is not under `src/`; the spec only requires two
distinct reserved selector values, a lower-case variant and an upper-case
variant that additionally forces environment names to upper case. -/
def WILDCARD : String := "*"

/-- Modelled from the spec: the upper-case wildcard marker variant, see
`WILDCARD`. -/
def WILDCARD_UPPERCASE : String := "**"

/-- Modelled from the spec: `normalizeOutputKey` comes from `src/utils`,
which is not under `src/`; the spec says derived names are "normalized
(sanitized to a valid output/environment-variable identifier)" and that
the environment variant is additionally upper-cased. -/
def normalizeOutputKey (key : String) (isEnvVar : Bool) : String :=
  match (String.mk (key.toList.map
          (fun c => if c.isAlphanum || c = '_' then c else '_'))) with
  | sanitized => if isEnvVar then upperStr sanitized else sanitized

/-- The selector transformation of `selectAndAppendResults`
(`src/secrets.js:253`): a selector without a literal dot is wrapped in
double quotes (`/.*[\.].*/` matches exactly the strings containing a
dot), every selector is prefixed with `data.`, and prefixed again when
`body.data["data"]` is loosely defined. -/
def buildSelector (selector : String) (body : Json) : Except Err String :=
  match (if !(jsContainsChar selector '.') then "\"" ++ selector ++ "\"" else selector) with
  | sel1 =>
    match ("data." ++ sel1) with
    | sel2 =>
      match jsMember (some body) "data" with
      | Except.error e => Except.error e
      | Except.ok d1 =>
        match jsMember d1 "data" with
        | Except.error e => Except.error e
        | Except.ok nested =>
          Except.ok (if isDefinedLoose nested then "data." ++ sel2 else sel2)

/-- `selectAndAppendResults` of `src/secrets.js:246`: build the final
selector, extract the value, append one result. -/
def selectAndAppendResults (selector : String) (body : Json) (cachedResponse : Bool)
    (secretRequest : SecretRequest) (results : List SecretResponse) :
    Except Err (List SecretResponse) :=
  match buildSelector selector body with
  | Except.error e => Except.error e
  | Except.ok sel =>
    match selectData body sel with
    | Except.error e => Except.error e
    | Except.ok value =>
      Except.ok (results ++
        [{ request := secretRequest, value := value, cachedResponse := cachedResponse }])

/-- The derived request for one wildcard-expanded key
(`src/secrets.js:79`): copy the request, set the selector to the key;
when the original selector equals the original output name both names
become the key, otherwise the key is appended to both; finally both names
are normalized, the environment name with the upper-case flag. -/
def deriveRequest (secretRequest : SecretRequest) (upperCaseEnv : Bool)
    (key : String) : SecretRequest :=
  match (if secretRequest.selector = secretRequest.outputVarName then
           { secretRequest with selector := key, outputVarName := key, envVarName := key }
         else
           { secretRequest with
               selector := key
               outputVarName := secretRequest.outputVarName ++ key
               envVarName := secretRequest.envVarName ++ key }) with
  | base =>
    { base with
        outputVarName := normalizeOutputKey base.outputVarName false
        envVarName := normalizeOutputKey base.envVarName upperCaseEnv }

/-- `upperCaseEnv = selector === WILDCARD_UPPERCASE` (`src/secrets.js:68`).
The source hoists the variable out of the loop but always reassigns it
before use in the same iteration. -/
def wildcardUpperFlag (secretRequest : SecretRequest) : Bool :=
  secretRequest.selector == WILDCARD_UPPERCASE

/-- `let keys = body.data; if (body.data["data"] != undefined) keys =
keys.data` (`src/secrets.js:69`), with JavaScript member-access crash
semantics. -/
def wildcardKeys (body : Json) : Except Err Json :=
  match jsMember (some body) "data" with
  | Except.error e => Except.error e
  | Except.ok none => Except.error Err.typeError
  | Except.ok (some keys1) =>
    match jsMember (some keys1) "data" with
    | Except.error e => Except.error e
    | Except.ok (some Json.null) => Except.ok keys1
    | Except.ok (some v) => Except.ok v
    | Except.ok none => Except.ok keys1

/-- Key enumeration of `for (let key in keys)`: the fields of an object
in declaration order; the engine only reaches this with an object (the
authorization gate already required `body.data.data` to be one). -/
def jsonFields : Json → List (String × Json)
  | Json.obj fields => fields
  | _ => []

/-- The reserved-key test of `src/secrets.js:76`: authorization metadata
keys are never emitted as secret values. -/
def reservedKey (k : String) : Bool :=
  jsStartsWith k "x-k8s-" || jsStartsWith k "x-github-"

/-- The wildcard expansion loop body (`src/secrets.js:74`): skip reserved
`x-k8s-` and `x-github-` keys, derive the per-key request, backtick-quote
keys containing a dot, and run each derived pair through the same
`selectAndAppendResults` as the non-wildcard path. -/
def processKeys (secretRequest : SecretRequest) (upperCaseEnv : Bool) (body : Json)
    (cachedResponse : Bool) :
    List (String × Json) → List SecretResponse → Except Err (List SecretResponse)
  | [], results => Except.ok results
  | (key, _) :: restKeys, results =>
    if reservedKey key then
      processKeys secretRequest upperCaseEnv body cachedResponse restKeys results
    else
      match selectAndAppendResults
          (if jsContainsChar key '.' then "\x60" ++ key ++ "\x60" else key)
          body cachedResponse
          (deriveRequest secretRequest upperCaseEnv key) results with
      | Except.error e => Except.error e
      | Except.ok results2 =>
        processKeys secretRequest upperCaseEnv body cachedResponse restKeys results2

structure TransportErr where
  statusCode : Nat
  body : String
deriving DecidableEq, Repr

/-- The engine environment: the transport adapter (`client.get`, modelled
as a deterministic path-to-response map whose successful bodies are the
parsed JSON), the raw `core.getInput('ignoreNotFound')` string, and the
identity context. -/
structure Env where
  get : String → Except TransportErr Json
  ignoreNotFoundInput : String
  ctx : AuthContext

/-- `(core.getInput('ignoreNotFound') || 'false').toLowerCase() != 'false'`
(`src/secrets.js:50`); `core.getInput` yields the empty string when the
input is unset, and `|| 'false'` replaces exactly the empty string. -/
def ignoreNotFoundFlag (env : Env) : Bool :=
  lowerStr (if env.ignoreNotFoundInput = "" then "false" else env.ignoreNotFoundInput)
    != "false"

def notFoundMsg (path : String) (respBody : String) : String :=
  "Unable to retrieve result for \"" ++ path ++
    "\" because it was not found: " ++ respBody.trim

/-- Observable events of one engine run, in chronological order:
`transportCall` when `client.get` is invoked, `resolved` when a payload
body has been obtained for a request (`cached` tells whether it came from
the response cache), `authCheck` when control reaches the
`isAllowed(body.data.data)` call for that payload. -/
inductive Event where
  | transportCall (requestPath : String)
  | resolved (requestPath : String) (cached : Bool)
  | authCheck (requestPath : String)
deriving DecidableEq, Repr

inductive FetchRes where
  | found (body : Json) (cached : Bool) (newCache : List (String × Json))
      (callLog : List Event)
  | skip (callLog : List Event)
  | fail (e : Err) (callLog : List Event)

/-- The fetch step of one loop iteration (`src/secrets.js:35`): serve the
body from the response cache, otherwise call the transport and cache a
successful body; a 404 either skips the request (ignore-not-found
enabled) or fails the batch with the not-found message; any other
transport error is rethrown.  A failed fetch caches nothing. -/
def fetchBody (env : Env) (responseCache : List (String × Json))
    (secretRequest : SecretRequest) : FetchRes :=
  match lookupField responseCache ("v1/" ++ secretRequest.path) with
  | some body => FetchRes.found body true responseCache []
  | none =>
    match env.get ("v1/" ++ secretRequest.path) with
    | Except.ok body =>
      FetchRes.found body false
        (("v1/" ++ secretRequest.path, body) :: responseCache)
        [Event.transportCall ("v1/" ++ secretRequest.path)]
    | Except.error e =>
      if e.statusCode = 404 then
        if ignoreNotFoundFlag env then
          FetchRes.skip [Event.transportCall ("v1/" ++ secretRequest.path)]
        else
          FetchRes.fail (Err.error (notFoundMsg secretRequest.path e.body))
            [Event.transportCall ("v1/" ++ secretRequest.path)]
      else
        FetchRes.fail (Err.httpError e.statusCode e.body)
          [Event.transportCall ("v1/" ++ secretRequest.path)]

inductive ResolveOut where
  | err (e : Err)
  | denied
  | ok (results : List SecretResponse)

/-- The argument expression `body.data.data` of the gate call at
`src/secrets.js:63`, with JavaScript member-access crash semantics. -/
def innerAuthData (body : Json) : Except Err (Option Json) :=
  match jsMember (some body) "data" with
  | Except.error e => Except.error e
  | Except.ok d1 => jsMember d1 "data"

/-- Processing of one obtained payload body (`src/secrets.js:62`): run the
authorization gate on `body.data.data` (a thrown TypeError propagates),
return the deny signal on a gate verdict of false, otherwise dispatch to
the wildcard expansion or to a single `selectAndAppendResults`. -/
def resolveBody (env : Env) (secretRequest : SecretRequest) (body : Json)
    (cachedResponse : Bool) (results : List SecretResponse) :
    List Event × ResolveOut :=
  match innerAuthData body with
  | Except.error e =>
    ([Event.resolved ("v1/" ++ secretRequest.path) cachedResponse,
      Event.authCheck ("v1/" ++ secretRequest.path)], ResolveOut.err e)
  | Except.ok d =>
    ([Event.resolved ("v1/" ++ secretRequest.path) cachedResponse,
      Event.authCheck ("v1/" ++ secretRequest.path)],
     match isAllowed env.ctx d with
     | Except.error e => ResolveOut.err e
     | Except.ok (false, _) => ResolveOut.denied
     | Except.ok (true, _) =>
       if secretRequest.selector = WILDCARD ∨ secretRequest.selector = WILDCARD_UPPERCASE then
         match wildcardKeys body with
         | Except.error e => ResolveOut.err e
         | Except.ok keys =>
           (match processKeys secretRequest (wildcardUpperFlag secretRequest) body
               cachedResponse (jsonFields keys) results with
            | Except.error e => ResolveOut.err e
            | Except.ok results2 => ResolveOut.ok results2)
       else
         match selectAndAppendResults secretRequest.selector body cachedResponse
             secretRequest results with
         | Except.error e => ResolveOut.err e
         | Except.ok results2 => ResolveOut.ok results2)

/-- The request loop of `getSecrets` (`src/secrets.js:32`), with the
response cache and the append-only result list threaded through, and the
event log of the whole remaining run returned alongside the outcome.  A
deny verdict returns `[]` for the whole batch (`src/secrets.js:64`). -/
def go (env : Env) :
    List SecretRequest → List (String × Json) → List SecretResponse →
    List Event × Except Err (List SecretResponse)
  | [], _, results => ([], Except.ok results)
  | secretRequest :: rest, responseCache, results =>
    match fetchBody env responseCache secretRequest with
    | FetchRes.fail e callLog => (callLog, Except.error e)
    | FetchRes.skip callLog =>
      (match go env rest responseCache results with
       | (log2, out) => (callLog ++ log2, out))
    | FetchRes.found body cached newCache callLog =>
      match resolveBody env secretRequest body cached results with
      | (bodyLog, ResolveOut.err e) => (callLog ++ bodyLog, Except.error e)
      | (bodyLog, ResolveOut.denied) => (callLog ++ bodyLog, Except.ok [])
      | (bodyLog, ResolveOut.ok results2) =>
        match go env rest newCache results2 with
        | (log2, out) => (callLog ++ bodyLog ++ log2, out)

/-- `getSecrets(secretRequests, client, ignoreNotFound)` of
`src/secrets.js:27`.  The `ignoreNotFound` parameter is accepted but
unused, exactly as in the source, where a local re-read of the
`ignoreNotFound` action input (`src/secrets.js:50`) shadows it. -/
def getSecrets (env : Env) (secretRequests : List SecretRequest)
    (ignoreNotFound : Bool) : List Event × Except Err (List SecretResponse) :=
  go env secretRequests [] []

/-!
Concrete fixtures used by witnesses and counterexamples.
-/

def testCtx : AuthContext :=
  { jobPodName := "pod-1", jobPodNamespace := "ns", jobPodServiceaccount := "sa",
    githubActor := "actor", githubRepository := "org/repo" }

/-- The five authorization attributes, all with the everything-matching
pattern. -/
def authFields : List (String × Json) :=
  [("x-k8s-podname", Json.str "*"), ("x-k8s-namespace", Json.str "*"),
   ("x-k8s-serviceaccount", Json.str "*"), ("x-github-actor", Json.str "*"),
   ("x-github-repo", Json.str "*")]

/-- An authorized payload in the nested wire shape with one value key. -/
def nestedBody : Json :=
  Json.obj [("data", Json.obj
    [("data", Json.obj (authFields ++ [("foo", Json.str "bar")])),
     ("metadata", Json.obj [])])]

/-- The same payload in the flatter wire shape. -/
def flatBody : Json :=
  Json.obj [("data", Json.obj (authFields ++ [("foo", Json.str "bar")]))]

/-- A payload missing every authorization attribute: the gate denies it. -/
def deniedBody : Json :=
  Json.obj [("data", Json.obj [("data", Json.obj [("foo", Json.str "bar")])])]

def testReq : SecretRequest :=
  { path := "secret/a", selector := "foo", outputVarName := "out", envVarName := "env" }

def testReqB : SecretRequest :=
  { path := "secret/b", selector := "foo", outputVarName := "outb", envVarName := "envb" }

/-- Transport serving an authorized nested payload for `secret/a` and a
to-be-denied payload for everything else. -/
def envDeny : Env :=
  { get := fun p => if p = "v1/secret/a" then Except.ok nestedBody else Except.ok deniedBody,
    ignoreNotFoundInput := "", ctx := testCtx }

def env404 : Env :=
  { get := fun _ => Except.error { statusCode := 404, body := " nope " },
    ignoreNotFoundInput := "", ctx := testCtx }

def env404i : Env :=
  { get := fun _ => Except.error { statusCode := 404, body := " nope " },
    ignoreNotFoundInput := "true", ctx := testCtx }

def env500 : Env :=
  { get := fun _ => Except.error { statusCode := 500, body := "boom" },
    ignoreNotFoundInput := "", ctx := testCtx }

/-- An upper-case wildcard request whose selector equals its output
name. -/
def reqUpper : SecretRequest :=
  { path := "p", selector := "**", outputVarName := "**", envVarName := "E" }

/-- Transport always serving the nested-shape payload. -/
def envNested : Env :=
  { get := fun _ => Except.ok nestedBody, ignoreNotFoundInput := "", ctx := testCtx }

/-- Transport always serving the flatter-shape payload. -/
def envFlat : Env :=
  { get := fun _ => Except.ok flatBody, ignoreNotFoundInput := "", ctx := testCtx }

/-- Inner data of the wildcard fixture: the five authorization
attributes plus value keys `a`, `b`, the reserved `x-k8s-foo`, and the
dotted `c.d`. -/
def wildFields : List (String × Json) :=
  authFields ++
    [("a", Json.str "va"), ("b", Json.str "vb"),
     ("x-k8s-foo", Json.str "x"), ("c.d", Json.str "vcd")]

/-- Nested-shape payload for the wildcard fixture. -/
def wildBody : Json :=
  Json.obj [("data", Json.obj [("data", Json.obj wildFields)])]

def envWild : Env :=
  { get := fun _ => Except.ok wildBody, ignoreNotFoundInput := "", ctx := testCtx }

/-- A lower-case wildcard request whose selector equals its output name
(derived names become the key itself). -/
def reqWild : SecretRequest :=
  { path := "p", selector := "*", outputVarName := "*", envVarName := "E" }

/-- The five attribute keys in the order the gate checks them. -/
def attrNames : List String :=
  ["x-k8s-podname", "x-k8s-namespace", "x-k8s-serviceaccount",
   "x-github-actor", "x-github-repo"]

/-- The context values the five checks compare against, in the same
order. -/
def ctxSubjects (ctx : AuthContext) : List String :=
  [ctx.jobPodName, ctx.jobPodNamespace, ctx.jobPodServiceaccount,
   ctx.githubActor, ctx.githubRepository]

/-- Spec-side reading of one check: it passes when the key is present in
the payload data (with a string pattern) and the context value matches
that value read as a glob pattern; an absent key fails the check. -/
def checkPass (fields : List (String × Json)) (check : String × String) : Bool :=
  match lookupField fields check.1 with
  | some (Json.str pat) => minimatch check.2 pat
  | _ => false

/-- Spec-side first-failure index over a check list. -/
def firstFailIdx (fields : List (String × Json)) :
    List (String × String) → Option Nat
  | [] => none
  | c :: rest =>
    if checkPass fields c then (firstFailIdx fields rest).map (· + 1) else some 0

/-- Number of transport calls for one request path in an event log. -/
def callCount (log : List Event) (q : String) : Nat :=
  log.countP (fun e => e == Event.transportCall q)

/-- The cache flags of the successive payload resolutions of one request
path, in order. -/
def resolvedFlags (log : List Event) (q : String) : List Bool :=
  log.filterMap (fun e =>
    match e with
    | Event.resolved p c => if p = q then some c else none
    | _ => none)

/-- Every `resolved` event is immediately followed by the authorization
gate invocation for the same request path. -/
def ResolvedThenAuth (log : List Event) : Prop :=
  ∀ i p c, log.get? i = some (Event.resolved p c) →
    log.get? (i + 1) = some (Event.authCheck p)

/-!
Claims.  `go` is the request loop of `getSecrets` with the response cache
and the accumulated result list made explicit;
`getSecrets env reqs i = go env reqs [] []` by definition, so statements
over `go` with arbitrary cache and results cover the engine at every
position of a batch.
-/

/-- C1: if the authorization gate denies the payload of any single
request of a batch — here the request at the head of the remaining work,
with arbitrary results already accumulated for earlier requests and
arbitrary requests still pending — `getSecrets` returns the successful
empty result list: not the partial list and not an error. -/
theorem getSecrets_denied_batch_empty (env : Env) (secretRequest : SecretRequest)
    (rest : List SecretRequest) (responseCache : List (String × Json))
    (results : List SecretResponse) (body : Json) (cached : Bool)
    (newCache : List (String × Json)) (callLog : List Event) (d : Option Json)
    (tr : List String)
    (hfetch : fetchBody env responseCache secretRequest =
      FetchRes.found body cached newCache callLog)
    (hdata : innerAuthData body = Except.ok d)
    (hdeny : isAllowed env.ctx d = Except.ok (false, tr)) :
    (go env (secretRequest :: rest) responseCache results).2 = Except.ok [] := by
  simp [go, hfetch, resolveBody, hdata, hdeny]

/-- C1 witness: a batch whose first request resolves successfully and
whose second is denied returns the empty list, discarding the result
already accumulated for the first request; the third request would
individually succeed. -/
theorem getSecrets_denied_batch_empty_witness :
    fetchBody envDeny [] testReqB =
      FetchRes.found deniedBody false [("v1/secret/b", deniedBody)]
        [Event.transportCall "v1/secret/b"] ∧
    innerAuthData deniedBody = Except.ok (some (Json.obj [("foo", Json.str "bar")])) ∧
    isAllowed envDeny.ctx (some (Json.obj [("foo", Json.str "bar")])) =
      Except.ok (false, ["x-k8s-podname"]) ∧
    (go envDeny [testReqB, testReq] []
      [{ request := testReq, value := "bar", cachedResponse := false }]).2 =
      Except.ok [] := by
  refine ⟨rfl, rfl, rfl, ?_⟩
  exact getSecrets_denied_batch_empty envDeny testReqB [testReq] []
    [{ request := testReq, value := "bar", cachedResponse := false }]
    deniedBody false [("v1/secret/b", deniedBody)] [Event.transportCall "v1/secret/b"]
    (some (Json.obj [("foo", Json.str "bar")])) ["x-k8s-podname"] rfl rfl rfl


/-- C7: a transport failure for the head request: a 404 with the
ignore-not-found policy disabled fails the whole batch with a fatal error
whose message contains the request path; a 404 with the policy enabled
skips the request (no result emitted, the accumulated results are passed
on unchanged) and continues with the remaining requests; a non-404
transport error fails the whole batch immediately with the rethrown
error, so no partial results are returned. -/
theorem getSecrets_notFound_policy (env : Env) (secretRequest : SecretRequest)
    (rest : List SecretRequest) (responseCache : List (String × Json))
    (results : List SecretResponse) (e : TransportErr)
    (hmiss : lookupField responseCache ("v1/" ++ secretRequest.path) = none)
    (herr : env.get ("v1/" ++ secretRequest.path) = Except.error e) :
    (e.statusCode = 404 → ignoreNotFoundFlag env = false →
       (go env (secretRequest :: rest) responseCache results).2 =
         Except.error (Err.error (notFoundMsg secretRequest.path e.body)) ∧
       ∃ pre post,
         notFoundMsg secretRequest.path e.body = pre ++ secretRequest.path ++ post) ∧
    (e.statusCode = 404 → ignoreNotFoundFlag env = true →
       go env (secretRequest :: rest) responseCache results =
         (Event.transportCall ("v1/" ++ secretRequest.path) ::
            (go env rest responseCache results).1,
          (go env rest responseCache results).2)) ∧
    (e.statusCode ≠ 404 →
       (go env (secretRequest :: rest) responseCache results).2 =
         Except.error (Err.httpError e.statusCode e.body)) := by
  refine ⟨fun h404 hig => ⟨?_, ?_⟩, fun h404 hig => ?_, fun hne => ?_⟩
  · simp [go, fetchBody, hmiss, herr, h404, hig]
  · exact ⟨"Unable to retrieve result for \"",
      "\" because it was not found: " ++ e.body.trim,
      by simp [notFoundMsg, String.append_assoc]⟩
  · simp [go, fetchBody, hmiss, herr, h404, hig]
  · simp [go, fetchBody, hmiss, herr, hne]

/-- C7 witness: concrete 404 without the ignore policy; the batch fails
with the not-found message for the request path. -/
theorem getSecrets_notFound_policy_witness :
    lookupField ([] : List (String × Json)) ("v1/" ++ testReq.path) = none ∧
    env404.get ("v1/" ++ testReq.path) =
      Except.error { statusCode := 404, body := " nope " } ∧
    (go env404 [testReq] [] []).2 =
      Except.error (Err.error (notFoundMsg testReq.path " nope ")) := by
  refine ⟨rfl, rfl, ?_⟩
  exact ((getSecrets_notFound_policy env404 testReq [] [] []
    { statusCode := 404, body := " nope " } rfl rfl).1 rfl (by decide)).1

/-- C10: the selector actually evaluated is never the caller's selector
verbatim: `selectAndAppendResults` (the single evaluation entry point for
both user-supplied and wildcard-derived selectors) wraps a dot-free
selector in double quotes, prefixes the result with `data.`, and prefixes
it once more exactly when the payload has a loosely-defined nested
`data` field; the built selector always differs from the input. -/
theorem buildSelector_never_verbatim (selector : String) (body : Json)
    (d1 : Option Json) (nested : Option Json)
    (h1 : jsMember (some body) "data" = Except.ok d1)
    (h2 : jsMember d1 "data" = Except.ok nested) :
    buildSelector selector body =
      Except.ok ((if isDefinedLoose nested then "data.data." else "data.") ++
        (if jsContainsChar selector '.' then selector
         else "\"" ++ selector ++ "\"")) ∧
    ∀ t, buildSelector selector body = Except.ok t → t ≠ selector := by
  have hbs : buildSelector selector body =
      Except.ok ((if isDefinedLoose nested then "data.data." else "data.") ++
        (if jsContainsChar selector '.' then selector
         else "\"" ++ selector ++ "\"")) := by
    simp only [buildSelector, h1, h2]
    by_cases hn : isDefinedLoose nested = true <;>
      by_cases hc : jsContainsChar selector '.' = true <;>
        simp [hn, hc, ← String.append_assoc]
  refine ⟨hbs, ?_⟩
  intro t ht heq
  rw [hbs] at ht
  have ht2 := Except.ok.inj ht
  subst ht2
  have hlen := congrArg String.length heq
  have l1 : ("data.data." : String).length = 10 := rfl
  have l2 : ("data." : String).length = 5 := rfl
  have l3 : ("\"" : String).length = 1 := rfl
  by_cases hn : isDefinedLoose nested = true <;>
    by_cases hc : jsContainsChar selector '.' = true <;>
      simp [hn, hc, String.length_append, l1, l2, l3] at hlen <;> omega

/-- C10 witness: the user selector `foo` against the nested payload is
evaluated as `data.data."foo"`, not verbatim. -/
theorem buildSelector_never_verbatim_witness :
    jsMember (some nestedBody) "data" =
      Except.ok (some (Json.obj
        [("data", Json.obj (authFields ++ [("foo", Json.str "bar")])),
         ("metadata", Json.obj [])])) ∧
    buildSelector "foo" nestedBody = Except.ok "data.data.\"foo\"" ∧
    ∀ t, buildSelector "foo" nestedBody = Except.ok t → t ≠ "foo" := by
  refine ⟨rfl, ?_, ?_⟩
  · exact ((buildSelector_never_verbatim "foo" nestedBody _ _ rfl rfl).1).trans (by rfl)
  · exact (buildSelector_never_verbatim "foo" nestedBody _ _ rfl rfl).2

/-- C9: name derivation for a wildcard-expanded key: when the original
selector equals the original output name, both derived names become the
key; otherwise the key is appended to the original output and environment
names; both results pass through `normalizeOutputKey`, whose environment
variant is exactly the upper-cased plain variant, and the upper-case flag
used by the expansion is set exactly when the request's wildcard marker
is the upper-case variant. -/
theorem deriveRequest_names (secretRequest : SecretRequest) (key : String) :
    (secretRequest.selector = secretRequest.outputVarName →
       (deriveRequest secretRequest (wildcardUpperFlag secretRequest) key).outputVarName =
         normalizeOutputKey key false ∧
       (deriveRequest secretRequest (wildcardUpperFlag secretRequest) key).envVarName =
         normalizeOutputKey key (wildcardUpperFlag secretRequest)) ∧
    (secretRequest.selector ≠ secretRequest.outputVarName →
       (deriveRequest secretRequest (wildcardUpperFlag secretRequest) key).outputVarName =
         normalizeOutputKey (secretRequest.outputVarName ++ key) false ∧
       (deriveRequest secretRequest (wildcardUpperFlag secretRequest) key).envVarName =
         normalizeOutputKey (secretRequest.envVarName ++ key)
           (wildcardUpperFlag secretRequest)) ∧
    (wildcardUpperFlag secretRequest = true ↔
       secretRequest.selector = WILDCARD_UPPERCASE) ∧
    (∀ s, normalizeOutputKey s true = upperStr (normalizeOutputKey s false)) := by
  refine ⟨fun heq => ?_, fun hne => ?_, ?_, fun s => ?_⟩
  · simp [deriveRequest, heq]
  · simp [deriveRequest, hne]
  · simp [wildcardUpperFlag]
  · simp [normalizeOutputKey]

/-- C9 witness: an upper-case wildcard request whose selector equals its
output name: the key `c.d` becomes output name `c_d` and environment name
`C_D`. -/
theorem deriveRequest_names_witness :
    wildcardUpperFlag reqUpper = true ∧
    reqUpper.selector = reqUpper.outputVarName ∧
    (deriveRequest reqUpper (wildcardUpperFlag reqUpper) "c.d").envVarName = "C_D" ∧
    (deriveRequest reqUpper (wildcardUpperFlag reqUpper) "c.d").outputVarName = "c_d" := by
  refine ⟨rfl, rfl, ?_, ?_⟩
  · exact (((deriveRequest_names reqUpper "c.d").1) rfl).2.trans (by rfl)
  · exact (((deriveRequest_names reqUpper "c.d").1) rfl).1.trans (by rfl)

/-- C4 counterexample: selector `foo` against `{"data": {}}` has an empty
primary evaluation, satisfies every retry condition (single-step path,
not literally `data`, payload has a `data` field), and the retried
evaluation `data.foo` is still empty; the claim says this must fail with
the SelectorNotFound error naming the selector, but `selectData` throws a
TypeError (the source reaches `result.startsWith` with `result`
undefined). -/
theorem selectData_still_empty_not_selectorNotFound :
    selectData (Json.obj [("data", Json.obj [])]) "foo" = Except.error Err.typeError ∧
    selectData (Json.obj [("data", Json.obj [])]) "foo" ≠
      Except.error (Err.error (selectorNotFoundMsg "foo")) := by
  refine ⟨rfl, ?_⟩
  intro h
  have h1 : selectData (Json.obj [("data", Json.obj [])]) "foo" =
      Except.error Err.typeError := rfl
  rw [h1] at h
  simp at h

/-- C4 (amended): with an empty primary evaluation, `selectData` retries
with `data.` prepended exactly when the selector is a one-step path or a
bare string literal, is not literally `data`, and the payload has a
top-level `data` field; when no retry applies it fails with the
SelectorNotFound error naming the selector; when the retry applies, a
non-empty retried evaluation is returned unwrapped, but an empty retried
evaluation crashes with a TypeError instead of the SelectorNotFound
error. -/
theorem selectData_fallback_behaviour (data : Json) (selector : String) (ast : Ast)
    (hp : parseJsonata selector = some ast)
    (he : evalAst ast data = none) :
    ((fallbackSyntax ast = false ∨ selector = "data" ∨
        hasKeyIn data "data" = Except.ok false) →
       selectData data selector =
         Except.error (Err.error (selectorNotFoundMsg selector))) ∧
    (fallbackSyntax ast = true → selector ≠ "data" →
       hasKeyIn data "data" = Except.ok true →
       (∀ ast2 v, parseJsonata ("data." ++ selector) = some ast2 →
          evalAst ast2 data = some v →
          selectData data selector = Except.ok (unwrapResult v)) ∧
       (∀ ast2, parseJsonata ("data." ++ selector) = some ast2 →
          evalAst ast2 data = none →
          selectData data selector = Except.error Err.typeError)) := by
  constructor
  · intro h
    rcases h with hs | hsel | hk
    · simp [selectData, hp, he, hs]
    · subst hsel
      simp [selectData, hp, he]
    · by_cases hcond : (fallbackSyntax ast && selector != "data") = true <;>
        simp [selectData, hp, he, hk, hcond]
  · intro hs hnsel hk
    have hb : (selector != "data") = true := by simp [hnsel]
    constructor
    · intro ast2 v hp2 he2
      simp [selectData, hp, he, hs, hb, hk, hp2, he2]
    · intro ast2 hp2 he2
      simp [selectData, hp, he, hs, hb, hk, hp2, he2]

/-- C4 witness: selector `foo` against `{"data": {"foo": "bar"}}` (the
flatter shape): the primary evaluation is empty, the retry as `data.foo`
finds the value, and `selectData` returns `bar`. -/
theorem selectData_fallback_behaviour_witness :
    parseJsonata "foo" = some (Ast.path ["foo"]) ∧
    evalAst (Ast.path ["foo"]) (Json.obj [("data", Json.obj [("foo", Json.str "bar")])]) =
      none ∧
    selectData (Json.obj [("data", Json.obj [("foo", Json.str "bar")])]) "foo" =
      Except.ok "bar" := by
  refine ⟨rfl, rfl, ?_⟩
  exact ((((selectData_fallback_behaviour
      (Json.obj [("data", Json.obj [("foo", Json.str "bar")])]) "foo"
      (Ast.path ["foo"]) rfl rfl).2 rfl (by decide) rfl).1
    (Ast.path ["data", "foo"]) (Json.str "bar") rfl rfl).trans (by rfl))

theorem lookupField_mem {fields : List (String × Json)} {key : String} {v : Json}
    (h : lookupField fields key = some v) : (key, v) ∈ fields := by
  induction fields with
  | nil => simp [lookupField] at h
  | cons kv rest ih =>
    rcases kv with ⟨k, w⟩
    by_cases hk : k = key
    · subst hk
      simp [lookupField] at h
      simp [h]
    · simp [lookupField, hk] at h
      exact List.mem_cons_of_mem _ (ih h)


/-- C2: over a payload data object whose authorization attribute values
are strings (the gate crashes on non-string patterns, which the claim
does not cover), `isAllowed` checks the five attributes in the fixed
order pod name, namespace, service account, actor, repository; a check
passes iff its key is present and the context value matches the
attribute value read as a glob pattern; with no failing check the gate
allows after checking all five, and with a first failing check at index
`i` it denies having checked exactly the first `i + 1` attributes
(short-circuit). -/
theorem isAllowed_fixed_order (ctx : AuthContext) (fields : List (String × Json))
    (hstr : ∀ k v, (k, v) ∈ fields → k ∈ attrNames → ∃ s, v = Json.str s) :
    (firstFailIdx fields (attrNames.zip (ctxSubjects ctx)) = none →
       isAllowed ctx (some (Json.obj fields)) = Except.ok (true, attrNames)) ∧
    (∀ i, firstFailIdx fields (attrNames.zip (ctxSubjects ctx)) = some i →
       isAllowed ctx (some (Json.obj fields)) =
         Except.ok (false, attrNames.take (i + 1))) := by
  have hca : ∀ key subj, key ∈ attrNames →
      checkAttr subj fields key = Except.ok (checkPass fields (key, subj)) := by
    intro key subj hk
    unfold checkAttr checkPass
    cases hl : lookupField fields key with
    | none => simp
    | some v =>
      rcases hstr key v (lookupField_mem hl) hk with ⟨s, rfl⟩
      simp
  have e1 := hca "x-k8s-podname" ctx.jobPodName (by simp [attrNames])
  have e2 := hca "x-k8s-namespace" ctx.jobPodNamespace (by simp [attrNames])
  have e3 := hca "x-k8s-serviceaccount" ctx.jobPodServiceaccount (by simp [attrNames])
  have e4 := hca "x-github-actor" ctx.githubActor (by simp [attrNames])
  have e5 := hca "x-github-repo" ctx.githubRepository (by simp [attrNames])
  by_cases h1 : checkPass fields ("x-k8s-podname", ctx.jobPodName) = true <;>
  by_cases h2 : checkPass fields ("x-k8s-namespace", ctx.jobPodNamespace) = true <;>
  by_cases h3 : checkPass fields ("x-k8s-serviceaccount", ctx.jobPodServiceaccount) = true <;>
  by_cases h4 : checkPass fields ("x-github-actor", ctx.githubActor) = true <;>
  by_cases h5 : checkPass fields ("x-github-repo", ctx.githubRepository) = true <;>
    simp [isAllowed, attrNames, ctxSubjects, firstFailIdx, e1, e2, e3, e4, e5,
      h1, h2, h3, h4, h5]

/-- C2 witness: the test context against a payload whose five attributes
all carry the everything-matching pattern: no check fails and the gate
allows having checked all five attributes in order. -/
theorem isAllowed_fixed_order_witness :
    firstFailIdx authFields (attrNames.zip (ctxSubjects testCtx)) = none ∧
    isAllowed testCtx (some (Json.obj authFields)) = Except.ok (true, attrNames) := by
  refine ⟨rfl, ?_⟩
  refine (isAllowed_fixed_order testCtx authFields ?_).1 rfl
  intro k v hm _
  simp [authFields] at hm
  rcases hm with ⟨rfl, rfl⟩ | ⟨rfl, rfl⟩ | ⟨rfl, rfl⟩ | ⟨rfl, rfl⟩ | ⟨rfl, rfl⟩ <;>
    exact ⟨_, rfl⟩

theorem mk_toList (s : String) : String.mk s.toList = s := rfl

theorem takeWhile_stop (p : Char → Bool) (stop : Char) (l r : List Char)
    (hstop : p stop = false) (h : ∀ c ∈ l, p c = true) :
    (l ++ stop :: r).takeWhile p = l := by
  induction l with
  | nil => simp [List.takeWhile_cons, hstop]
  | cons a as ih =>
    simp [List.takeWhile_cons, h a (by simp), ih (fun c hc => h c (by simp [hc]))]

theorem dropWhile_stop (p : Char → Bool) (stop : Char) (l r : List Char)
    (hstop : p stop = false) (h : ∀ c ∈ l, p c = true) :
    (l ++ stop :: r).dropWhile p = stop :: r := by
  induction l with
  | nil => simp [List.dropWhile_cons, hstop]
  | cons a as ih =>
    simp [List.dropWhile_cons, h a (by simp), ih (fun c hc => h c (by simp [hc]))]

theorem not_mem_of_contains_false {k : String} {c : Char}
    (h : jsContainsChar k c = false) : ∀ x ∈ k.toList, ¬(x = c) := by
  intro x hx heq
  subst heq
  simp [jsContainsChar] at h
  exact h hx

theorem mk_data (s : String) : String.mk s.data = s := rfl

theorem parseStep_quoted (k : String) (r : List Char)
    (hq : jsContainsChar k '"' = false) :
    parseStep ('"' :: (k.toList ++ '"' :: r)) = some (true, k, r) := by
  have h1 : ∀ c ∈ k.toList, (fun c => decide (c ≠ '"')) c = true := by
    intro c hc
    simpa using not_mem_of_contains_false hq c hc
  simp only [parseStep, String.toList] at h1 ⊢
  rw [takeWhile_stop (fun c => decide (c ≠ '"')) '"' _ _ (by simp) h1,
      dropWhile_stop (fun c => decide (c ≠ '"')) '"' _ _ (by simp) h1]
  simp [mk_data]

theorem parseStep_backtick (k : String) (r : List Char)
    (hb : jsContainsChar k '\x60' = false) :
    parseStep ('\x60' :: (k.toList ++ '\x60' :: r)) = some (false, k, r) := by
  have h1 : ∀ c ∈ k.toList, (fun c => decide (c ≠ '\x60')) c = true := by
    intro c hc
    simpa using not_mem_of_contains_false hb c hc
  simp only [parseStep, String.toList] at h1 ⊢
  rw [takeWhile_stop (fun c => decide (c ≠ '\x60')) '\x60' _ _ (by simp) h1,
      dropWhile_stop (fun c => decide (c ≠ '\x60')) '\x60' _ _ (by simp) h1]
  simp [mk_data]

theorem parseStep_data (rest : List Char) :
    parseStep ('d' :: 'a' :: 't' :: 'a' :: '.' :: rest) =
      some (false, "data", '.' :: rest) := by
  have s1 : isIdentStart 'd' = true := rfl
  have c1 : isIdentChar 'd' = true := rfl
  have c2 : isIdentChar 'a' = true := rfl
  have c3 : isIdentChar 't' = true := rfl
  have c4 : isIdentChar '.' = false := rfl
  simp [parseStep, s1, c1, c2, c3, c4, List.takeWhile_cons, List.dropWhile_cons]

theorem parseSteps_data_peel (f : Nat) (rest : List Char) :
    parseSteps (f + 1) ('d' :: 'a' :: 't' :: 'a' :: '.' :: rest) =
      Option.map (List.cons (false, "data")) (parseSteps f rest) := by
  cases h : parseSteps f rest <;> simp [parseSteps, parseStep_data, h]

theorem parseSteps_quoted_single (f : Nat) (k : String)
    (hq : jsContainsChar k '"' = false) :
    parseSteps (f + 1) ('"' :: (k.toList ++ ['"'])) = some [(true, k)] := by
  have h := parseStep_quoted k [] hq
  simp only [String.toList] at h ⊢
  simp [parseSteps, h]

theorem parseSteps_backtick_single (f : Nat) (k : String)
    (hb : jsContainsChar k '\x60' = false) :
    parseSteps (f + 1) ('\x60' :: (k.toList ++ ['\x60'])) = some [(false, k)] := by
  have h := parseStep_backtick k [] hb
  simp only [String.toList] at h ⊢
  simp [parseSteps, h]

theorem parseJsonata_data_quoted (k : String) (hq : jsContainsChar k '"' = false) :
    parseJsonata ("data." ++ ("\"" ++ k ++ "\"")) = some (Ast.path ["data", k]) := by
  have hl : ("data." ++ ("\"" ++ k ++ "\"")).toList =
      'd' :: 'a' :: 't' :: 'a' :: '.' :: ('"' :: (k.toList ++ ['"'])) := rfl
  have hlen : ("data." ++ ("\"" ++ k ++ "\"")).length = (k.length + 6) + 1 := by
    have l1 : ("data." : String).length = 5 := rfl
    have l2 : ("\"" : String).length = 1 := rfl
    simp [String.length_append, l1, l2]
    omega
  unfold parseJsonata
  rw [hl, hlen, parseSteps_data_peel, parseSteps_quoted_single _ _ hq]
  simp

theorem parseJsonata_data_data_quoted (k : String)
    (hq : jsContainsChar k '"' = false) :
    parseJsonata ("data." ++ ("data." ++ ("\"" ++ k ++ "\""))) =
      some (Ast.path ["data", "data", k]) := by
  have hl : ("data." ++ ("data." ++ ("\"" ++ k ++ "\""))).toList =
      'd' :: 'a' :: 't' :: 'a' :: '.' ::
        ('d' :: 'a' :: 't' :: 'a' :: '.' :: ('"' :: (k.toList ++ ['"']))) := rfl
  have hlen : ("data." ++ ("data." ++ ("\"" ++ k ++ "\""))).length =
      ((k.length + 10) + 1) + 1 := by
    have l1 : ("data." : String).length = 5 := rfl
    have l2 : ("\"" : String).length = 1 := rfl
    simp [String.length_append, l1, l2]
    omega
  unfold parseJsonata
  rw [hl, hlen, parseSteps_data_peel, parseSteps_data_peel,
    parseSteps_quoted_single _ _ hq]
  simp

theorem parseJsonata_data_data_backtick (k : String)
    (hb : jsContainsChar k '\x60' = false) :
    parseJsonata ("data." ++ ("data." ++ ("\x60" ++ k ++ "\x60"))) =
      some (Ast.path ["data", "data", k]) := by
  have hl : ("data." ++ ("data." ++ ("\x60" ++ k ++ "\x60"))).toList =
      'd' :: 'a' :: 't' :: 'a' :: '.' ::
        ('d' :: 'a' :: 't' :: 'a' :: '.' :: ('\x60' :: (k.toList ++ ['\x60']))) := rfl
  have hlen : ("data." ++ ("data." ++ ("\x60" ++ k ++ "\x60"))).length =
      ((k.length + 10) + 1) + 1 := by
    have l1 : ("data." : String).length = 5 := rfl
    have l2 : ("\x60" : String).length = 1 := rfl
    simp [String.length_append, l1, l2]
    omega
  unfold parseJsonata
  rw [hl, hlen, parseSteps_data_peel, parseSteps_data_peel,
    parseSteps_backtick_single _ _ hb]
  simp

theorem contains_dot_backtick (k : String) (hdot : jsContainsChar k '.' = true) :
    jsContainsChar ("\x60" ++ k ++ "\x60") '.' = true := by
  simp [jsContainsChar] at hdot ⊢
  exact hdot

theorem selectAppend_nested_key (bfields f1 fields : List (String × Json)) (k : String)
    (v : Json) (req : SecretRequest) (results : List SecretResponse) (c : Bool)
    (hb : lookupField bfields "data" = some (Json.obj f1))
    (hf : lookupField f1 "data" = some (Json.obj fields))
    (hk : lookupField fields k = some v)
    (hq : jsContainsChar k '"' = false)
    (hbt : jsContainsChar k '\x60' = false) :
    selectAndAppendResults (if jsContainsChar k '.' then "\x60" ++ k ++ "\x60" else k)
      (Json.obj bfields) c req results =
      Except.ok (results ++
        [{ request := req, value := unwrapResult v, cachedResponse := c }]) := by
  by_cases hdot : jsContainsChar k '.' = true
  · have hsel : jsContainsChar ("\x60" ++ k ++ "\x60") '.' = true :=
      contains_dot_backtick k hdot
    simp [hdot, selectAndAppendResults, buildSelector, hsel, jsMember, hb, hf,
      isDefinedLoose, selectData, parseJsonata_data_data_backtick k hbt,
      evalAst, evalPath, hk]
  · have hdot2 : jsContainsChar k '.' = false := by
      cases h2 : jsContainsChar k '.' with
      | true => exact absurd h2 hdot
      | false => rfl
    simp [hdot2, selectAndAppendResults, buildSelector, jsMember, hb, hf,
      isDefinedLoose, selectData, parseJsonata_data_data_quoted k hq,
      evalAst, evalPath, hk]

theorem selectAppend_flat_key (bfields fields : List (String × Json)) (k : String)
    (v : Json) (req : SecretRequest) (results : List SecretResponse) (c : Bool)
    (hb : lookupField bfields "data" = some (Json.obj fields))
    (hnone : lookupField fields "data" = none)
    (hk : lookupField fields k = some v)
    (hq : jsContainsChar k '"' = false)
    (hdot : jsContainsChar k '.' = false) :
    selectAndAppendResults k (Json.obj bfields) c req results =
      Except.ok (results ++
        [{ request := req, value := unwrapResult v, cachedResponse := c }]) := by
  simp [selectAndAppendResults, buildSelector, hdot, jsMember, hb, hnone,
    isDefinedLoose, selectData, parseJsonata_data_quoted k hq,
    evalAst, evalPath, hk]

/-- C3 counterexample: the same request against the same secret value in
the two wire shapes: the nested shape resolves the value, but the flatter
shape makes `getSecrets` crash with a TypeError (outside the documented
error taxonomy), because `isAllowed(body.data.data)` receives undefined
and the `in` operator throws. -/
theorem getSecrets_flat_shape_crashes :
    (getSecrets envFlat [testReq] false).2 = Except.error Err.typeError ∧
    (getSecrets envNested [testReq] false).2 =
      Except.ok [{ request := testReq, value := "bar", cachedResponse := false }] :=
  ⟨rfl, rfl⟩

/-- C3 (amended): only the nested wire shape is processed without
failure end to end.  For a flatter-shape payload (`body.data.data`
undefined) `getSecrets` crashes with a TypeError at the authorization
gate before any value is extracted; the value-extraction path
(`selectAndAppendResults`) does tolerate the flatter shape, resolving a
present key through its `data.`-prefix construction. -/
theorem flat_shape_behaviour :
    (∀ (env : Env) (secretRequest : SecretRequest) (rest : List SecretRequest)
       (responseCache : List (String × Json)) (results : List SecretResponse)
       (body : Json) (cached : Bool) (newCache : List (String × Json))
       (callLog : List Event),
       fetchBody env responseCache secretRequest =
         FetchRes.found body cached newCache callLog →
       innerAuthData body = Except.ok none →
       (go env (secretRequest :: rest) responseCache results).2 =
         Except.error Err.typeError) ∧
    (∀ (bfields fields : List (String × Json)) (k : String) (v : Json)
       (req : SecretRequest) (results : List SecretResponse) (c : Bool),
       lookupField bfields "data" = some (Json.obj fields) →
       lookupField fields "data" = none →
       lookupField fields k = some v →
       jsContainsChar k '"' = false →
       jsContainsChar k '.' = false →
       selectAndAppendResults k (Json.obj bfields) c req results =
         Except.ok (results ++
           [{ request := req, value := unwrapResult v, cachedResponse := c }])) := by
  constructor
  · intro env secretRequest rest responseCache results body cached newCache callLog hf hd
    simp [go, hf, resolveBody, hd, isAllowed]
  · intro bfields fields k v req results c hb hnone hk hq hdot
    exact selectAppend_flat_key bfields fields k v req results c hb hnone hk hq hdot

/-- C3 witness: the flat-shape fixture crashes through `getSecrets`
while direct value extraction on the same payload succeeds. -/
theorem flat_shape_behaviour_witness :
    fetchBody envFlat [] testReq =
      FetchRes.found flatBody false [("v1/secret/a", flatBody)]
        [Event.transportCall "v1/secret/a"] ∧
    innerAuthData flatBody = Except.ok none ∧
    (go envFlat [testReq] [] []).2 = Except.error Err.typeError ∧
    selectAndAppendResults "foo" flatBody false testReq [] =
      Except.ok [{ request := testReq, value := "bar", cachedResponse := false }] := by
  refine ⟨rfl, rfl, ?_, ?_⟩
  · exact flat_shape_behaviour.1 envFlat testReq [] [] [] flatBody false
      [("v1/secret/a", flatBody)] [Event.transportCall "v1/secret/a"] rfl rfl
  · exact (flat_shape_behaviour.2 [("data", Json.obj (authFields ++ [("foo", Json.str "bar")]))]
      (authFields ++ [("foo", Json.str "bar")]) "foo" (Json.str "bar") testReq [] false
      rfl rfl rfl rfl rfl).trans (by rfl)

theorem lookupField_of_mem_nodup :
    ∀ (fields : List (String × Json)) (k : String) (v : Json),
      (k, v) ∈ fields → (fields.map Prod.fst).Nodup → lookupField fields k = some v := by
  intro fields
  induction fields with
  | nil => intro k v h _; simp at h
  | cons kv rest ih =>
    intro k v hm hnd
    rcases kv with ⟨k0, v0⟩
    rw [List.map_cons, List.nodup_cons] at hnd
    rcases hnd with ⟨hk0, hnd2⟩
    rcases List.mem_cons.mp hm with heq | hmem
    · rcases Prod.mk.inj (heq.symm) with ⟨rfl, rfl⟩
      simp [lookupField]
    · have hk : ¬(k0 = k) := by
        intro he
        subst he
        exact hk0 (List.mem_map.mpr ⟨(k0, v), hmem, rfl⟩)
      simp [lookupField, hk, ih k v hmem hnd2]

theorem wildcardKeys_of_inner (body : Json) (fields : List (String × Json))
    (h : innerAuthData body = Except.ok (some (Json.obj fields))) :
    wildcardKeys body = Except.ok (Json.obj fields) := by
  cases body with
  | obj bf =>
    simp only [innerAuthData, jsMember] at h
    cases hd : lookupField bf "data" with
    | none => simp [hd, jsMember] at h
    | some v =>
      cases v <;> simp [hd, jsMember] at h
      case obj f1 => simp [wildcardKeys, jsMember, hd, h]
  | null => simp [innerAuthData, jsMember] at h
  | bool b => simp [innerAuthData, jsMember] at h
  | num n => simp [innerAuthData, jsMember] at h
  | str s => simp [innerAuthData, jsMember] at h
  | arr xs => simp [innerAuthData, jsMember] at h

theorem processKeys_append (secretRequest : SecretRequest) (upperCaseEnv : Bool)
    (bfields f1 fields : List (String × Json)) (c : Bool)
    (hb : lookupField bfields "data" = some (Json.obj f1))
    (hf : lookupField f1 "data" = some (Json.obj fields))
    (hnd : (fields.map Prod.fst).Nodup)
    (hwf : ∀ p ∈ fields,
      jsContainsChar p.1 '"' = false ∧ jsContainsChar p.1 '\x60' = false) :
    ∀ (iter : List (String × Json)), (∀ p ∈ iter, p ∈ fields) →
      ∀ (results : List SecretResponse),
      processKeys secretRequest upperCaseEnv (Json.obj bfields) c iter results =
        Except.ok (results ++
          (iter.filter (fun p => !(reservedKey p.1))).map
            (fun p => { request := deriveRequest secretRequest upperCaseEnv p.1,
                        value := unwrapResult p.2, cachedResponse := c })) := by
  intro iter
  induction iter with
  | nil => intro _ results; simp [processKeys]
  | cons kv restKeys ih =>
    intro hsub results
    rcases kv with ⟨k, v⟩
    have hmem : (k, v) ∈ fields := hsub (k, v) (by simp)
    have hsub2 : ∀ p ∈ restKeys, p ∈ fields := fun p hp => hsub p (by simp [hp])
    by_cases hres : reservedKey k = true
    · simp [processKeys, hres, List.filter_cons, ih hsub2 results]
    · have hres2 : reservedKey k = false := by
        cases h2 : reservedKey k with
        | true => exact absurd h2 hres
        | false => rfl
      have hk := lookupField_of_mem_nodup fields k v hmem hnd
      have hwfk := hwf (k, v) hmem
      have hsel := selectAppend_nested_key bfields f1 fields k v
        (deriveRequest secretRequest upperCaseEnv k) results c hb hf hk hwfk.1 hwfk.2
      simp [processKeys, hres2, List.filter_cons, hsel, ih hsub2]

/-- C8: a wildcard request over an authorized payload produces, inserted
at the point of the request (appended after the results accumulated so
far), exactly one result per inner data key that is not reserved
(`x-k8s-` / `x-github-` prefixes), in the iteration order of the
payload's keys, each carrying the derived request, the unwrapped value
and the originating fetch's cache flag; reserved keys are never emitted.
The payload keys are assumed free of double quotes and backticks (keys
containing them would make the jsonata selector construction of
`src/secrets.js:96` syntactically invalid) and distinct, as JSON object
keys are. -/
theorem wildcard_one_result_per_key (env : Env) (secretRequest : SecretRequest)
    (bfields f1 fields : List (String × Json)) (c : Bool)
    (results : List SecretResponse) (tr : List String)
    (hsel : secretRequest.selector = WILDCARD ∨
      secretRequest.selector = WILDCARD_UPPERCASE)
    (hb : lookupField bfields "data" = some (Json.obj f1))
    (hf : lookupField f1 "data" = some (Json.obj fields))
    (hauth : isAllowed env.ctx (some (Json.obj fields)) = Except.ok (true, tr))
    (hwf : ∀ p ∈ fields,
      jsContainsChar p.1 '"' = false ∧ jsContainsChar p.1 '\x60' = false)
    (hnd : (fields.map Prod.fst).Nodup) :
    resolveBody env secretRequest (Json.obj bfields) c results =
      ([Event.resolved ("v1/" ++ secretRequest.path) c,
        Event.authCheck ("v1/" ++ secretRequest.path)],
       ResolveOut.ok (results ++
         (fields.filter (fun p => !(reservedKey p.1))).map
           (fun p => { request := deriveRequest secretRequest
                         (wildcardUpperFlag secretRequest) p.1,
                       value := unwrapResult p.2, cachedResponse := c }))) := by
  have hinner : innerAuthData (Json.obj bfields) =
      Except.ok (some (Json.obj fields)) := by
    simp [innerAuthData, jsMember, hb, hf]
  have hkeys := wildcardKeys_of_inner (Json.obj bfields) fields hinner
  have hpk := processKeys_append secretRequest (wildcardUpperFlag secretRequest)
    bfields f1 fields c hb hf hnd hwf fields (fun p hp => hp) results
  rw [resolveBody, hinner]
  simp only [hauth, if_pos hsel, hkeys, jsonFields, hpk]

/-- C8 witness: a lower-case wildcard over the fixture payload with keys
`a`, `b`, `x-k8s-foo`, `c.d` (plus the five authorization attributes)
yields exactly three results, for `a`, `b` and `c.d`, in key order. -/
theorem wildcard_one_result_per_key_witness :
    (reqWild.selector = WILDCARD ∨ reqWild.selector = WILDCARD_UPPERCASE) ∧
    isAllowed envWild.ctx (some (Json.obj wildFields)) =
      Except.ok (true, attrNames) ∧
    resolveBody envWild reqWild wildBody false [] =
      ([Event.resolved "v1/p" false, Event.authCheck "v1/p"],
       ResolveOut.ok
         [⟨⟨"p", "a", "a", "a"⟩, "va", false⟩,
          ⟨⟨"p", "b", "b", "b"⟩, "vb", false⟩,
          ⟨⟨"p", "c.d", "c_d", "c_d"⟩, "vcd", false⟩]) := by
  refine ⟨Or.inl rfl, rfl, ?_⟩
  have h := wildcard_one_result_per_key envWild reqWild
    [("data", Json.obj [("data", Json.obj wildFields)])]
    [("data", Json.obj wildFields)] wildFields false [] attrNames
    (Or.inl rfl) rfl rfl rfl (by decide) (by decide)
  exact h.trans (by rfl)

theorem rta_nil : ResolvedThenAuth [] := by
  intro i p c h
  simp [List.get?] at h

theorem rta_call {l : List Event} (q : String) (h : ResolvedThenAuth l) :
    ResolvedThenAuth (Event.transportCall q :: l) := by
  intro i p c hi
  cases i with
  | zero => simp [List.get?] at hi
  | succ j => exact h j p c hi

theorem rta_resolved {l : List Event} (q : String) (c0 : Bool)
    (h : ResolvedThenAuth l) :
    ResolvedThenAuth (Event.resolved q c0 :: Event.authCheck q :: l) := by
  intro i p c hi
  cases i with
  | zero =>
    simp [List.get?] at hi
    simp [List.get?, hi]
  | succ j =>
    cases j with
    | zero => simp [List.get?] at hi
    | succ j2 => exact h j2 p c hi

theorem resolveBody_log (env : Env) (secretRequest : SecretRequest) (body : Json)
    (c : Bool) (results : List SecretResponse) :
    (resolveBody env secretRequest body c results).1 =
      [Event.resolved ("v1/" ++ secretRequest.path) c,
       Event.authCheck ("v1/" ++ secretRequest.path)] := by
  rw [resolveBody]
  split <;> rfl

theorem go_resolvedThenAuth (env : Env) :
    ∀ (secretRequests : List SecretRequest) (responseCache : List (String × Json))
      (results : List SecretResponse),
      ResolvedThenAuth (go env secretRequests responseCache results).1 := by
  intro secretRequests
  induction secretRequests with
  | nil => intro responseCache results; exact rta_nil
  | cons secretRequest rest ih =>
    intro responseCache results
    cases hl : lookupField responseCache ("v1/" ++ secretRequest.path) with
    | some body =>
      have hrb := resolveBody_log env secretRequest body true results
      cases hrb2 : resolveBody env secretRequest body true results with
      | mk blog out =>
        rw [hrb2] at hrb
        simp at hrb
        subst hrb
        cases out with
        | err e =>
          simp [go, fetchBody, hl, hrb2]
          exact rta_resolved _ _ rta_nil
        | denied =>
          simp [go, fetchBody, hl, hrb2]
          exact rta_resolved _ _ rta_nil
        | ok results2 =>
          simp [go, fetchBody, hl, hrb2]
          exact rta_resolved _ _ (ih responseCache results2)
    | none =>
      cases hg : env.get ("v1/" ++ secretRequest.path) with
      | ok body =>
        have hrb := resolveBody_log env secretRequest body false results
        cases hrb2 : resolveBody env secretRequest body false results with
        | mk blog out =>
          rw [hrb2] at hrb
          simp at hrb
          subst hrb
          cases out with
          | err e =>
            simp [go, fetchBody, hl, hg, hrb2]
            exact rta_call _ (rta_resolved _ _ rta_nil)
          | denied =>
            simp [go, fetchBody, hl, hg, hrb2]
            exact rta_call _ (rta_resolved _ _ rta_nil)
          | ok results2 =>
            simp [go, fetchBody, hl, hg, hrb2]
            exact rta_call _ (rta_resolved _ _
              (ih (("v1/" ++ secretRequest.path, body) :: responseCache) results2))
      | error e =>
        by_cases h404 : e.statusCode = 404
        · by_cases hig : ignoreNotFoundFlag env = true
          · simp [go, fetchBody, hl, hg, h404, hig]
            exact rta_call _ (ih responseCache results)
          · simp [go, fetchBody, hl, hg, h404, hig]
            exact rta_call _ rta_nil
        · simp [go, fetchBody, hl, hg, h404]
          exact rta_call _ rta_nil

/-- C6: a payload resolution served from the response cache (the
transport call is skipped) is still immediately followed by the
authorization gate invocation on that payload, before any value is
extracted: authorization is applied per payload resolution, not only on
fresh fetches. -/
theorem cached_resolution_still_authorized (env : Env)
    (secretRequests : List SecretRequest) (ignoreNotFound : Bool) (i : Nat)
    (p : String)
    (h : (getSecrets env secretRequests ignoreNotFound).1.get? i =
      some (Event.resolved p true)) :
    (getSecrets env secretRequests ignoreNotFound).1.get? (i + 1) =
      some (Event.authCheck p) := by
  exact go_resolvedThenAuth env secretRequests [] [] i p true h

/-- C6 witness: the same path requested twice; the second resolution is
served from the cache (index 3 of the event log) and is immediately
followed by the gate invocation. -/
theorem cached_resolution_still_authorized_witness :
    (getSecrets envNested [testReq, testReq] false).1.get? 3 =
      some (Event.resolved "v1/secret/a" true) ∧
    (getSecrets envNested [testReq, testReq] false).1.get? 4 =
      some (Event.authCheck "v1/secret/a") := by
  refine ⟨rfl, ?_⟩
  exact cached_resolution_still_authorized envNested [testReq, testReq] false 3
    "v1/secret/a" rfl

theorem callCount_cons (e : Event) (l : List Event) (q : String) :
    callCount (e :: l) q =
      callCount l q + (if e = Event.transportCall q then 1 else 0) := by
  simp only [callCount, List.countP_cons]
  by_cases h : e = Event.transportCall q <;> simp [h]

theorem resolvedFlags_cons_other (e : Event) (l : List Event) (q : String)
    (h : ∀ p c, e = Event.resolved p c → ¬(p = q)) :
    resolvedFlags (e :: l) q = resolvedFlags l q := by
  cases e with
  | resolved p c => simp [resolvedFlags, List.filterMap_cons, h p c rfl]
  | transportCall p => simp [resolvedFlags, List.filterMap_cons]
  | authCheck p => simp [resolvedFlags, List.filterMap_cons]

theorem resolvedFlags_cons_same (c : Bool) (l : List Event) (q : String) :
    resolvedFlags (Event.resolved q c :: l) q = c :: resolvedFlags l q := by
  simp [resolvedFlags, List.filterMap_cons]

theorem resolvedFlags_call (p : String) (l : List Event) (q : String) :
    resolvedFlags (Event.transportCall p :: l) q = resolvedFlags l q := by
  simp [resolvedFlags, List.filterMap_cons]

theorem resolvedFlags_auth (p : String) (l : List Event) (q : String) :
    resolvedFlags (Event.authCheck p :: l) q = resolvedFlags l q := by
  simp [resolvedFlags, List.filterMap_cons]

theorem resolvedFlags_res (p : String) (c : Bool) (l : List Event) (q : String) :
    resolvedFlags (Event.resolved p c :: l) q =
      (if p = q then c :: resolvedFlags l q else resolvedFlags l q) := by
  by_cases h : p = q <;> simp [resolvedFlags, List.filterMap_cons, h]

theorem callCount_nil (q : String) : callCount [] q = 0 := rfl

theorem resolvedFlags_nil (q : String) : resolvedFlags [] q = [] := rfl

theorem go_calls_cached (env : Env) (q : String) :
    ∀ (secretRequests : List SecretRequest) (responseCache : List (String × Json))
      (results : List SecretResponse),
      (lookupField responseCache q).isSome = true →
      callCount (go env secretRequests responseCache results).1 q = 0 ∧
      (∀ b ∈ resolvedFlags (go env secretRequests responseCache results).1 q,
        b = true) := by
  intro secretRequests
  induction secretRequests with
  | nil => intro cache results hc; simp [go, callCount_nil, resolvedFlags_nil]
  | cons secretRequest rest ih =>
    intro cache results hc
    cases hl : lookupField cache ("v1/" ++ secretRequest.path) with
    | some body =>
      cases hrb : resolveBody env secretRequest body true results with
      | mk blog out =>
        have hlog := resolveBody_log env secretRequest body true results
        rw [hrb] at hlog
        simp at hlog
        subst hlog
        cases out with
        | err e =>
          simp [go, fetchBody, hl, hrb, callCount_cons, resolvedFlags_res,
            resolvedFlags_auth, resolvedFlags_nil, callCount_nil]
        | denied =>
          simp [go, fetchBody, hl, hrb, callCount_cons, resolvedFlags_res,
            resolvedFlags_auth, resolvedFlags_nil, callCount_nil]
        | ok results2 =>
          rcases ih cache results2 hc with ⟨ihc, ihf⟩
          simp [go, fetchBody, hl, hrb, callCount_cons, resolvedFlags_res,
            resolvedFlags_auth, ihc]
          by_cases hqq : ("v1/" ++ secretRequest.path) = q <;>
            simp [hqq] <;> simpa using ihf
    | none =>
      have hqne : ¬("v1/" ++ secretRequest.path = q) := by
        intro he
        rw [he] at hl
        rw [hl] at hc
        simp at hc
      cases hg : env.get ("v1/" ++ secretRequest.path) with
      | ok body =>
        cases hrb : resolveBody env secretRequest body false results with
        | mk blog out =>
          have hlog := resolveBody_log env secretRequest body false results
          rw [hrb] at hlog
          simp at hlog
          subst hlog
          have hc2 : (lookupField
              (("v1/" ++ secretRequest.path, body) :: cache) q).isSome = true := by
            simp [lookupField, hqne]
            exact hc
          cases out with
          | err e =>
            simp [go, fetchBody, hl, hg, hrb, callCount_cons, resolvedFlags_res,
              resolvedFlags_auth, resolvedFlags_call, resolvedFlags_nil,
              callCount_nil, hqne]
          | denied =>
            simp [go, fetchBody, hl, hg, hrb, callCount_cons, resolvedFlags_res,
              resolvedFlags_auth, resolvedFlags_call, resolvedFlags_nil,
              callCount_nil, hqne]
          | ok results2 =>
            rcases ih (("v1/" ++ secretRequest.path, body) :: cache) results2 hc2 with
              ⟨ihc, ihf⟩
            simp [go, fetchBody, hl, hg, hrb, callCount_cons, resolvedFlags_res,
              resolvedFlags_auth, resolvedFlags_call, ihc, hqne]
            simpa using ihf
      | error e =>
        by_cases h404 : e.statusCode = 404
        · by_cases hig : ignoreNotFoundFlag env = true
          · rcases ih cache results hc with ⟨ihc, ihf⟩
            simp [go, fetchBody, hl, hg, h404, hig, callCount_cons,
              resolvedFlags_call, ihc, hqne]
            simpa using ihf
          · simp [go, fetchBody, hl, hg, h404, hig, callCount_cons,
              resolvedFlags_call, resolvedFlags_nil, callCount_nil, hqne]
        · simp [go, fetchBody, hl, hg, h404, callCount_cons,
            resolvedFlags_call, resolvedFlags_nil, callCount_nil, hqne]

theorem go_calls_fresh (env : Env) (q : String) (bq : Json)
    (hget : env.get q = Except.ok bq) :
    ∀ (secretRequests : List SecretRequest) (responseCache : List (String × Json))
      (results : List SecretResponse),
      lookupField responseCache q = none →
      callCount (go env secretRequests responseCache results).1 q ≤ 1 ∧
      (resolvedFlags (go env secretRequests responseCache results).1 q = [] ∨
       ∃ tl, resolvedFlags (go env secretRequests responseCache results).1 q =
           false :: tl ∧ false ∉ tl) := by
  intro secretRequests
  induction secretRequests with
  | nil =>
    intro cache results hc
    simp [go, callCount_nil, resolvedFlags_nil]
  | cons secretRequest rest ih =>
    intro cache results hc
    by_cases hqq : ("v1/" ++ secretRequest.path) = q
    · subst hqq
      cases hrb : resolveBody env secretRequest bq false results with
      | mk blog out =>
        have hlog := resolveBody_log env secretRequest bq false results
        rw [hrb] at hlog
        simp at hlog
        subst hlog
        cases out with
        | err e =>
          simp [go, fetchBody, hc, hget, hrb, callCount_cons, resolvedFlags_res,
            resolvedFlags_auth, resolvedFlags_call, resolvedFlags_nil,
            callCount_nil]
        | denied =>
          simp [go, fetchBody, hc, hget, hrb, callCount_cons, resolvedFlags_res,
            resolvedFlags_auth, resolvedFlags_call, resolvedFlags_nil,
            callCount_nil]
        | ok results2 =>
          have hc2 : (lookupField
              (("v1/" ++ secretRequest.path, bq) :: cache)
                ("v1/" ++ secretRequest.path)).isSome = true := by
            simp [lookupField]
          rcases go_calls_cached env ("v1/" ++ secretRequest.path) rest
            (("v1/" ++ secretRequest.path, bq) :: cache) results2 hc2 with ⟨ihc, ihf⟩
          simp [go, fetchBody, hc, hget, hrb, callCount_cons, resolvedFlags_res,
            resolvedFlags_auth, resolvedFlags_call, ihc]
          simpa using ihf
    · cases hl : lookupField cache ("v1/" ++ secretRequest.path) with
      | some body =>
        cases hrb : resolveBody env secretRequest body true results with
        | mk blog out =>
          have hlog := resolveBody_log env secretRequest body true results
          rw [hrb] at hlog
          simp at hlog
          subst hlog
          cases out with
          | err e =>
            simp [go, fetchBody, hl, hrb, callCount_cons, resolvedFlags_res,
              resolvedFlags_auth, resolvedFlags_nil, callCount_nil, hqq]
          | denied =>
            simp [go, fetchBody, hl, hrb, callCount_cons, resolvedFlags_res,
              resolvedFlags_auth, resolvedFlags_nil, callCount_nil, hqq]
          | ok results2 =>
            rcases ih cache results2 hc with ⟨ihc, ihf⟩
            simp [go, fetchBody, hl, hrb, callCount_cons, resolvedFlags_res,
              resolvedFlags_auth, hqq, ihc]
            exact ihf
      | none =>
        cases hg : env.get ("v1/" ++ secretRequest.path) with
        | ok body =>
          cases hrb : resolveBody env secretRequest body false results with
          | mk blog out =>
            have hlog := resolveBody_log env secretRequest body false results
            rw [hrb] at hlog
            simp at hlog
            subst hlog
            have hc2 : lookupField
                (("v1/" ++ secretRequest.path, body) :: cache) q = none := by
              simp [lookupField, hqq]
              exact hc
            cases out with
            | err e =>
              simp [go, fetchBody, hl, hg, hrb, callCount_cons, resolvedFlags_res,
                resolvedFlags_auth, resolvedFlags_call, resolvedFlags_nil,
                callCount_nil, hqq]
            | denied =>
              simp [go, fetchBody, hl, hg, hrb, callCount_cons, resolvedFlags_res,
                resolvedFlags_auth, resolvedFlags_call, resolvedFlags_nil,
                callCount_nil, hqq]
            | ok results2 =>
              rcases ih (("v1/" ++ secretRequest.path, body) :: cache) results2 hc2 with
                ⟨ihc, ihf⟩
              simp [go, fetchBody, hl, hg, hrb, callCount_cons, resolvedFlags_res,
                resolvedFlags_auth, resolvedFlags_call, hqq, ihc]
              exact ihf
        | error e =>
          by_cases h404 : e.statusCode = 404
          · by_cases hig : ignoreNotFoundFlag env = true
            · rcases ih cache results hc with ⟨ihc, ihf⟩
              simp [go, fetchBody, hl, hg, h404, hig, callCount_cons,
                resolvedFlags_call, hqq, ihc]
              exact ihf
            · simp [go, fetchBody, hl, hg, h404, hig, callCount_cons,
                resolvedFlags_call, resolvedFlags_nil, callCount_nil, hqq]
          · simp [go, fetchBody, hl, hg, h404, callCount_cons,
              resolvedFlags_call, resolvedFlags_nil, callCount_nil, hqq]

theorem selectAppend_shape (selector : String) (body : Json) (c : Bool)
    (req : SecretRequest) (results res : List SecretResponse)
    (h : selectAndAppendResults selector body c req results = Except.ok res) :
    ∃ value, res =
      results ++ [{ request := req, value := value, cachedResponse := c }] := by
  unfold selectAndAppendResults at h
  cases hb : buildSelector selector body with
  | error e => rw [hb] at h; simp at h
  | ok sel =>
    rw [hb] at h
    simp only at h
    cases hd : selectData body sel with
    | error e => rw [hd] at h; simp at h
    | ok value =>
      rw [hd] at h
      simp at h
      exact ⟨value, h.symm⟩

theorem processKeys_flags :
    ∀ (iter : List (String × Json)) (secretRequest : SecretRequest) (u : Bool)
      (body : Json) (c : Bool) (results results2 : List SecretResponse),
      processKeys secretRequest u body c iter results = Except.ok results2 →
      ∃ tl, results2 = results ++ tl ∧ ∀ r ∈ tl, r.cachedResponse = c := by
  intro iter
  induction iter with
  | nil =>
    intro sr u body c results results2 h
    simp [processKeys] at h
    exact ⟨[], by simp [h], by simp⟩
  | cons kv restKeys ih =>
    intro sr u body c results results2 h
    rcases kv with ⟨k, v⟩
    by_cases hres : reservedKey k = true
    · simp [processKeys, hres] at h
      exact ih sr u body c results results2 h
    · have hres2 : reservedKey k = false := by
        cases h2 : reservedKey k with
        | true => exact absurd h2 hres
        | false => rfl
      simp [processKeys, hres2] at h
      cases hsa : selectAndAppendResults
          (if jsContainsChar k '.' = true then "\x60" ++ k ++ "\x60" else k)
          body c (deriveRequest sr u k) results with
      | error e => rw [hsa] at h; simp at h
      | ok resMid =>
        rw [hsa] at h
        rcases ih sr u body c resMid results2 h with ⟨tl2, htl2, hflags2⟩
        rcases selectAppend_shape _ body c (deriveRequest sr u k) results resMid hsa with
          ⟨value, hmid⟩
        refine ⟨⟨deriveRequest sr u k, value, c⟩ :: tl2, ?_, ?_⟩
        · simp [htl2, hmid]
        · intro r hr
          rcases List.mem_cons.mp hr with rfl | hr2
          · rfl
          · exact hflags2 r hr2

/-- C5 counterexample: a path occurring in two requests of one batch is
fetched TWICE when the fetch fails with 404 and the ignore-not-found
policy is enabled — a failed fetch is never cached — refuting "exactly
one transport GET call occurs for that path". -/
theorem duplicated_404_path_fetched_twice :
    getSecrets env404i [testReq, testReq] false =
      ([Event.transportCall "v1/secret/a", Event.transportCall "v1/secret/a"],
       Except.ok []) ∧
    callCount (getSecrets env404i [testReq, testReq] false).1 "v1/secret/a" = 2 :=
  ⟨rfl, rfl⟩

/-- C5 (amended): for every path whose transport response is a success,
at most one transport call occurs in the batch (the first successful
fetch caches the body); the resolutions of such a path carry
cachedResponse flags `false` for the first and `true` for all later
ones; and every result produced while expanding one wildcard request
carries the cachedResponse flag of its originating fetch.  Paths whose
fetch fails are not cached, so the per-path single-call guarantee does
not extend to them (see the counterexample). -/
theorem transport_once_per_successful_path (env : Env)
    (secretRequests : List SecretRequest) (ignoreNotFound : Bool) (q : String)
    (bq : Json) (hget : env.get q = Except.ok bq) :
    callCount (getSecrets env secretRequests ignoreNotFound).1 q ≤ 1 ∧
    (resolvedFlags (getSecrets env secretRequests ignoreNotFound).1 q = [] ∨
     ∃ tl, resolvedFlags (getSecrets env secretRequests ignoreNotFound).1 q =
         false :: tl ∧ ∀ b ∈ tl, b = true) ∧
    (∀ (iter : List (String × Json)) (secretRequest : SecretRequest) (u : Bool)
       (body : Json) (c : Bool) (results results2 : List SecretResponse),
       processKeys secretRequest u body c iter results = Except.ok results2 →
       ∃ tl, results2 = results ++ tl ∧ ∀ r ∈ tl, r.cachedResponse = c) := by
  rcases go_calls_fresh env q bq hget secretRequests [] [] rfl with ⟨h1, h2⟩
  refine ⟨h1, ?_, fun iter sr u body c results results2 h =>
    processKeys_flags iter sr u body c results results2 h⟩
  rcases h2 with h2 | ⟨tl, htl, hmem⟩
  · exact Or.inl h2
  · refine Or.inr ⟨tl, htl, fun b hb => ?_⟩
    cases b with
    | true => rfl
    | false => exact absurd hb hmem

/-- C5 witness: the nested fixture path requested twice: one transport
call, resolution flags `[false, true]`. -/
theorem transport_once_per_successful_path_witness :
    envNested.get "v1/secret/a" = Except.ok nestedBody ∧
    callCount (getSecrets envNested [testReq, testReq] false).1 "v1/secret/a" ≤ 1 ∧
    (resolvedFlags (getSecrets envNested [testReq, testReq] false).1 "v1/secret/a" =
        [] ∨
     ∃ tl, resolvedFlags
         (getSecrets envNested [testReq, testReq] false).1 "v1/secret/a" =
           false :: tl ∧ ∀ b ∈ tl, b = true) := by
  have h := transport_once_per_successful_path envNested [testReq, testReq] false
    "v1/secret/a" nestedBody rfl
  exact ⟨rfl, h.1, h.2.1⟩
